import Mathlib

/-!
Shallow embedding of the Stretch Video warp engine.

The source repository implements the same control-point-driven mesh warp
twice: a WebGL renderer (`src/web`, GLSL vertex shader plus the host-side
`VideoProcessor` in TypeScript) and a Metal renderer
(`src/ios/StretchVideo/WarpShader.metal` plus the Swift host code).  The
definitions below translate the displacement evaluator (`applyWarp`), the
mesh generator (`createMesh` / `generateMesh`), the control point store
operations (`addControlPoint`, `updateControlPoint`) and the WebGL render
tick (`VideoProcessor.render`) into Lean, keeping the source's structure:
shader floats become real numbers, GPU loops become folds over index
ranges, host-side JavaScript/Swift state becomes explicit record state.
-/

namespace StretchVideo

/-- A 2-D vector, the embedding of GLSL/Metal `float2` / `vec2`. -/
@[ext]
structure Vec2 where
  x : ℝ
  y : ℝ

/-- Componentwise addition, GLSL `a + b` on `vec2`. -/
def vadd (a b : Vec2) : Vec2 := ⟨a.x + b.x, a.y + b.y⟩

/-- Componentwise subtraction, GLSL `a - b` on `vec2`. -/
def vsub (a b : Vec2) : Vec2 := ⟨a.x - b.x, a.y - b.y⟩

/-- Scalar multiplication, GLSL `s * v`. -/
def smul (s : ℝ) (v : Vec2) : Vec2 := ⟨s * v.x, s * v.y⟩

/-- GLSL/Metal `length(v)`: the Euclidean norm. -/
noncomputable def length (v : Vec2) : ℝ := Real.sqrt (v.x * v.x + v.y * v.y)

/-- GLSL/Metal `normalize(v)`: `v` divided by its length. -/
noncomputable def normalize (v : Vec2) : Vec2 :=
  ⟨v.x / length v, v.y / length v⟩

/-- GLSL/Metal scalar `clamp(x, lo, hi)`. -/
noncomputable def clampR (x lo hi : ℝ) : ℝ := max lo (min hi x)

/-- `clamp(v, vec2(0.0), vec2(1.0))`: the final clamp of `applyWarp`
into the unit square (WarpShader.metal line 98). -/
noncomputable def clampUnit (v : Vec2) : Vec2 := ⟨clampR v.x 0 1, clampR v.y 0 1⟩

/-- Control point kind: `type` field of the Metal `ControlPoint` struct
(0 = stretch, 1 = anchor) and of the Swift `ControlPoint.PointType`. -/
inductive PointKind where
  | stretch
  | anchor
deriving DecidableEq, Repr

/-- The control point record: `id`, `position`, `type`, `strength`,
`radius`, `isLocked` as in the Swift `ControlPoint` struct; the shader
consumes the `position`/`strength`/`radius`/`type` fields. -/
structure ControlPoint where
  id : ℕ
  position : Vec2
  type : PointKind
  strength : ℝ
  radius : ℝ
  isLocked : Bool

/-- The zero-filled uniform slot: unused entries of the fixed 16-slot
GPU arrays hold zeroes (`Float32Array` is zero-initialised), so a default
point has zero strength and zero radius and never influences a vertex. -/
instance : Inhabited ControlPoint :=
  ⟨⟨0, ⟨0, 0⟩, PointKind.stretch, 0, 0, false⟩⟩

/-- Falloff kernel selection: `interpolationType` uniform
(0 = linear, 1 = smooth, 2 = elastic). -/
inductive InterpKind where
  | linear
  | smooth
  | elastic
deriving DecidableEq, Repr

/-- The uniforms consumed by `applyWarp` (Metal `WarpUniforms` /
the GLSL uniform block): global strength, number of active control
points, kernel selection. -/
structure WarpUniforms where
  globalStrength : ℝ
  numControlPoints : ℕ
  interpKind : InterpKind

/-- GLSL/Metal `smoothstep(edge0, edge1, x)`:
clamp `(x - edge0) / (edge1 - edge0)` into `[0,1]`, then apply the
Hermite polynomial `t·t·(3 - 2·t)`. -/
noncomputable def smoothstep (edge0 edge1 x : ℝ) : ℝ :=
  let t := clampR ((x - edge0) / (edge1 - edge0)) 0 1
  t * t * (3 - 2 * t)

/-- The `switch (uniforms.interpolationType)` block of the Metal
`applyWarp` (WarpShader.metal lines 70-80): turn the raw linear influence
into the kernel-weighted influence.  The GLSL shader has no such switch —
it hard-codes `smoothstep` (see `warpStepWeb`). -/
noncomputable def influenceOf (k : InterpKind) (t : ℝ) : ℝ :=
  match k with
  | InterpKind.linear => t
  | InterpKind.smooth => smoothstep 0 1 t
  | InterpKind.elastic => t * t * (3 - 2 * t)

/-- One iteration of the Metal `applyWarp` loop (WarpShader.metal lines
55-95): given the original vertex `position`, the accumulated `warped`
position and the control point `c`, either skip (outside the radius, or
within the coincidence epsilon 0.001) or add the stretch / anchor
contribution.  The GLSL loop body differs — no epsilon (it skips only at
distance 0), no anchor branch, hard-coded smoothstep — and is embedded
separately as `warpStepWeb`. -/
noncomputable def warpStep (position : Vec2) (uniforms : WarpUniforms)
    (warped : Vec2) (c : ControlPoint) : Vec2 :=
  let offset := vsub position c.position
  let d := length offset
  if c.radius ≤ d ∨ d < 0.001 then warped
  else
    let influence := influenceOf uniforms.interpKind (1 - d / c.radius)
    if c.type = PointKind.stretch then
      let warpDirection := normalize offset
      let warpMagnitude := c.strength * influence * uniforms.globalStrength
      vadd warped (smul (warpMagnitude * 0.1) warpDirection)
    else
      let anchorStrength := c.strength * influence * uniforms.globalStrength
      vsub warped (smul (anchorStrength * 0.05) offset)

/-- The Metal `applyWarp` (WarpShader.metal lines 48-101): loop
`for (i = 0; i < numControlPoints && i < 16; i++)` over the fixed 16-slot
control point array, accumulate the per-point contributions, and clamp
the result into the unit square.  The final clamp exists only in the
Metal shader (line 98); the GLSL `applyWarp` returns the accumulated
position unclamped (see `applyWarpWeb`). -/
noncomputable def applyWarp (position : Vec2) (controlPoints : List ControlPoint)
    (uniforms : WarpUniforms) : Vec2 :=
  let n := min uniforms.numControlPoints 16
  let warped := (List.range n).foldl
    (fun w i => warpStep position uniforms w (controlPoints.getD i default))
    position
  clampUnit warped

/-- The host-side global warp parameters relevant to the evaluator
(`WarpSettings.globalStrength` / `interpolationType`). -/
structure WarpParams where
  globalStrength : ℝ
  kernel : InterpKind

/-- Build the uniforms the host uploads for a point list of length `n`:
`gl.uniform1i(numPointsLocation, Math.min(points.length, 16))`
(VideoProcessor.render, part_001 line 323). -/
def toUniforms (params : WarpParams) (n : ℕ) : WarpUniforms :=
  ⟨params.globalStrength, min n 16, params.kernel⟩

/-- The displacement field evaluator with the Metal per-point step,
driven by the fixed-capacity host upload shared by both renderers: the
host uploads the first 16 points (`controlPoints.slice(0, 16)`) and sets
`numControlPoints = min(length, 16)` (part_001 lines 322-342; the Metal
loop bound is the same `i < 16`). -/
noncomputable def displace (p : Vec2) (points : List ControlPoint)
    (params : WarpParams) : Vec2 :=
  applyWarp p (points.take 16) (toUniforms params points.length)

/-- One iteration of the GLSL `applyWarp` loop (part_001 lines 67-85):
the guard is `distance < radius && distance > 0.0` (no coincidence
epsilon), the influence is always `smoothstep(0.0, 1.0, 1.0 - d/radius)`
(the interpolation setting is never uploaded), and every point gets the
stretch treatment `warpedPos += normalize(offset) * strength * influence
* u_globalStrength * 0.1` — there is no anchor branch and no `type`
uniform. -/
noncomputable def warpStepWeb (position : Vec2) (globalStrength : ℝ)
    (warped : Vec2) (c : ControlPoint) : Vec2 :=
  let offset := vsub position c.position
  let d := length offset
  if d < c.radius ∧ 0 < d then
    let influence := smoothstep 0 1 (1 - d / c.radius)
    let warpDirection := normalize offset
    let warpAmount := c.strength * influence * globalStrength
    vadd warped (smul (warpAmount * 0.1) warpDirection)
  else warped

/-- The GLSL `applyWarp` (part_001 lines 64-89): loop
`for (i = 0; i < u_numControlPoints && i < 16; i++)` over the 16-slot
uniform arrays and accumulate; the warped position is returned with no
final clamp. -/
noncomputable def applyWarpWeb (position : Vec2)
    (controlPoints : List ControlPoint) (numControlPoints : ℕ)
    (globalStrength : ℝ) : Vec2 :=
  (List.range (min numControlPoints 16)).foldl
    (fun w i => warpStepWeb position globalStrength w
      (controlPoints.getD i default))
    position

/-- The web displacement field evaluator as driven by the host render
pass (part_001 lines 322-342): the host uploads `slice(0, 16)` of the
point list, `numControlPoints = min(length, 16)` and the global strength;
the interpolation setting held in the warp settings is never uploaded, so
`params.kernel` is not read. -/
noncomputable def displaceWeb (p : Vec2) (points : List ControlPoint)
    (params : WarpParams) : Vec2 :=
  applyWarpWeb p (points.take 16) (min points.length 16)
    params.globalStrength

/-- Membership in the unit square `[0,1]²` (the normalized coordinate
domain of the mesh vertices and stored control point positions). -/
def inUnitSquare (v : Vec2) : Prop :=
  0 ≤ v.x ∧ v.x ≤ 1 ∧ 0 ≤ v.y ∧ v.y ≤ 1

/-! ### Mesh generator

`VideoProcessor.createMesh` (part_001 lines 177-222): a `(R+1)×(R+1)`
grid of vertices at normalized UV coordinates `(x/R, y/R)` (outer loop
over `y`, inner over `x`), and for every cell two triangles
`(topLeft, bottomLeft, topRight)`, `(topRight, bottomLeft, bottomRight)`
with row-major vertex indexing `topLeft = y·(R+1) + x`. -/

/-- The vertex positions pushed by `createMesh`, in push order. -/
def meshVertices (R : ℕ) : List (ℚ × ℚ) :=
  (List.range (R + 1)).flatMap (fun y =>
    (List.range (R + 1)).map (fun x : ℕ => ((x : ℚ) / (R : ℚ), (y : ℚ) / (R : ℚ))))

/-- The six index entries emitted for grid cell `(x, y)`. -/
def cellIndices (R x y : ℕ) : List ℕ :=
  let topLeft := y * (R + 1) + x
  let topRight := topLeft + 1
  let bottomLeft := (y + 1) * (R + 1) + x
  let bottomRight := bottomLeft + 1
  [topLeft, bottomLeft, topRight, topRight, bottomLeft, bottomRight]

/-- The index list pushed by `createMesh`, in push order (outer loop over
`y`, inner over `x`, six entries per cell). -/
def meshIndices (R : ℕ) : List ℕ :=
  (List.range R).flatMap (fun y =>
    (List.range R).flatMap (fun x => cellIndices R x y))

/-- `createMesh` / `generate(R)`: the vertex list and the index list. -/
def createMesh (R : ℕ) : List (ℚ × ℚ) × List ℕ :=
  (meshVertices R, meshIndices R)

/-! ### Control point store (Swift host code)

`CGPoint.fromViewCoordinates` divides by the view size with no clamping;
`VideoEditorView.addControlPoint` clamps the normalized position into
`[0,1]²` before appending; `VideoProcessor.updateControlPoint` writes
`position` / `strength` / `radius` with no clamping at all. -/

/-- `CGPoint.fromViewCoordinates(point, in: size)`: plain division by the
view dimensions (no clamping). -/
noncomputable def fromViewCoordinates (point size : Vec2) : Vec2 :=
  ⟨point.x / size.x, point.y / size.y⟩

/-- `VideoEditorView.addControlPoint(at:)` (VideoEditorView.swift lines
356-368): if the view size is not zero, clamp the normalized location into
`[0,1]²` with `max(0, min(1, ·))` and append a new point with the Swift
`ControlPoint` defaults (`type: .stretch, strength: 1.0, radius: 0.1,
isLocked: false`). -/
noncomputable def addControlPointEditor (points : List ControlPoint) (nextId : ℕ)
    (location viewSize : Vec2) : List ControlPoint :=
  if viewSize.x = 0 ∧ viewSize.y = 0 then points
  else
    points ++ [{ id := nextId
                 position := ⟨max 0 (min 1 (location.x / viewSize.x)),
                              max 0 (min 1 (location.y / viewSize.y))⟩
                 type := PointKind.stretch
                 strength := 1
                 radius := 0.1
                 isLocked := false }]

/-- `VideoProcessor.updateControlPoint(_:position:strength:radius:)`
(Swift host code): find the point by id and overwrite whichever of the
three fields was supplied — the position through `fromViewCoordinates`,
the strength and radius verbatim; no field is clamped. -/
noncomputable def updateControlPoint (points : List ControlPoint) (pointId : ℕ)
    (position : Option Vec2) (strength : Option ℝ) (radius : Option ℝ)
    (videoSize : Vec2) : List ControlPoint :=
  match points.findIdx? (fun c => c.id == pointId) with
  | none => points
  | some i =>
    let c := points.getD i default
    let c := match position with
      | some pos => { c with position := fromViewCoordinates pos videoSize }
      | none => c
    let c := match strength with
      | some s => { c with strength := s }
      | none => c
    let c := match radius with
      | some r => { c with radius := r }
      | none => c
    points.set i c

/-- The range invariant the specification states for every stored control
point: position in `[0,1]²`, strength in `[0,2]`, radius in `(0,1]`. -/
def pointInRange (c : ControlPoint) : Prop :=
  0 ≤ c.position.x ∧ c.position.x ≤ 1 ∧
  0 ≤ c.position.y ∧ c.position.y ≤ 1 ∧
  0 ≤ c.strength ∧ c.strength ≤ 2 ∧
  0 < c.radius ∧ c.radius ≤ 1

/-! ### WebGL render tick (part_001, `VideoProcessor.render`)

The tick is modelled as a total state transformer.  `render` returns
immediately when the processor is uninitialized, no video is loaded, or
the shader program is missing.  Otherwise it re-uploads the texture only
when the current frame is decoded
(`video.readyState >= HAVE_CURRENT_DATA`, i.e. `>= 2`), then clears the
canvas and draws the warped mesh, overwriting the presentable surface
with the composite of the bound texture and the current control point
snapshot. -/

/-- The loaded `HTMLVideoElement` state the tick reads: `readyState` and
the current frame (abstracted as an identifier). -/
structure VideoState where
  readyState : ℕ
  currentFrame : ℕ

/-- What a composited surface shows: the frame bound as the texture, and
the control point / settings snapshot the draw call used. -/
structure SurfaceContent where
  frame : Option ℕ
  points : List ControlPoint
  settings : WarpParams

/-- The `VideoProcessor` state the render tick touches. -/
structure ProcessorState where
  isInitialized : Bool
  video : Option VideoState
  shaderProgram : Option Unit
  texture : Option ℕ
  controlPoints : List ControlPoint
  warpSettings : WarpParams
  surface : Option SurfaceContent

/-- `VideoProcessor.render` (part_001 lines 272-354): guard clause, then
conditional texture upload, then clear + draw. -/
def render (st : ProcessorState) : ProcessorState :=
  if !st.isInitialized || st.video.isNone || st.shaderProgram.isNone then st
  else
    let tex := match st.video with
      | some v => if 2 ≤ v.readyState then some v.currentFrame else st.texture
      | none => st.texture
    { st with
      texture := tex
      surface := some ⟨tex, st.controlPoints, st.warpSettings⟩ }

/-! ### Basic lemmas about the vector operations -/

lemma clampR_nonneg (x : ℝ) : 0 ≤ clampR x 0 1 := le_max_left 0 _

lemma clampR_le_one (x : ℝ) : clampR x 0 1 ≤ 1 :=
  max_le zero_le_one (min_le_left 1 x)

lemma clampR_eq_self {x : ℝ} (h0 : 0 ≤ x) (h1 : x ≤ 1) : clampR x 0 1 = x := by
  unfold clampR
  rw [min_eq_right h1, max_eq_right h0]

lemma clampUnit_eq_self {v : Vec2} (hx0 : 0 ≤ v.x) (hx1 : v.x ≤ 1)
    (hy0 : 0 ≤ v.y) (hy1 : v.y ≤ 1) : clampUnit v = v := by
  unfold clampUnit
  ext
  · exact clampR_eq_self hx0 hx1
  · exact clampR_eq_self hy0 hy1

lemma length_nonneg (v : Vec2) : 0 ≤ length v := Real.sqrt_nonneg _

lemma length_mk_zero {a : ℝ} (ha : 0 ≤ a) : length ⟨0, a⟩ = a := by
  unfold length
  simp only
  rw [show (0:ℝ) * 0 + a * a = a * a by ring, Real.sqrt_mul_self ha]

/-! ### Structure of the evaluator -/

/-- `displace` on a singleton list is a single loop iteration followed by
the final clamp. -/
lemma displace_singleton (p : Vec2) (c : ControlPoint) (params : WarpParams) :
    displace p [c] params = clampUnit (warpStep p (toUniforms params 1) p c) := by
  unfold displace applyWarp
  rw [List.take_of_length_le (by simp)]
  simp only [toUniforms, List.length_singleton]
  rw [show List.range (min (min 1 16) 16) = [0] from rfl]
  simp

/-- The spec's range invariant on the clamp output. -/
lemma clampUnit_mem (v : Vec2) :
    0 ≤ (clampUnit v).x ∧ (clampUnit v).x ≤ 1 ∧
    0 ≤ (clampUnit v).y ∧ (clampUnit v).y ≤ 1 :=
  ⟨clampR_nonneg _, clampR_le_one _, clampR_nonneg _, clampR_le_one _⟩

/-- C3 (amended): the Metal evaluator's output always lies in the unit
square `[0,1]²` — the accumulated warped position is clamped
componentwise as the final step of the Metal `applyWarp`.  The clamp is
Metal-only: the web evaluator returns the accumulated position unclamped
and can leave the unit square (see the counterexample
`web_displace_escapes_unit_square`). -/
theorem displace_mem_unit_square (p : Vec2) (pts : List ControlPoint)
    (params : WarpParams) :
    0 ≤ (displace p pts params).x ∧ (displace p pts params).x ≤ 1 ∧
    0 ≤ (displace p pts params).y ∧ (displace p pts params).y ≤ 1 := by
  unfold displace applyWarp
  exact clampUnit_mem _

/-- C5: `displace` with the empty control point list is the identity on
every vertex of the unit square (the loop body never runs, and the final
clamp fixes every point of `[0,1]²`). -/
theorem displace_empty_id (p : Vec2) (params : WarpParams)
    (hx0 : 0 ≤ p.x) (hx1 : p.x ≤ 1) (hy0 : 0 ≤ p.y) (hy1 : p.y ≤ 1) :
    displace p [] params = p := by
  unfold displace applyWarp toUniforms
  simp only [List.take_nil, List.length_nil, Nat.zero_min, Nat.min_zero,
    List.range_zero, List.foldl_nil]
  exact clampUnit_eq_self hx0 hx1 hy0 hy1

/-- Witness for the C5 theorem at the centre vertex. -/
theorem displace_empty_id_witness :
    displace ⟨1/2, 1/2⟩ [] ⟨1, InterpKind.linear⟩ = (⟨1/2, 1/2⟩ : Vec2) :=
  displace_empty_id _ _ (by norm_num) (by norm_num) (by norm_num) (by norm_num)

/-- C1: the displacement field depends only on the first 16 control
points in store order.  With 20 stored points, `displace` agrees with
`displace` on the first 16 alone; appending a 21st point changes neither
the output at any vertex nor the active first-16 prefix. -/
theorem displace_cap_sixteen (p : Vec2) (pts : List ControlPoint)
    (params : WarpParams) (c : ControlPoint) (h : pts.length = 20) :
    displace p pts params = displace p (pts.take 16) params ∧
    displace p (pts ++ [c]) params = displace p pts params ∧
    (pts ++ [c]).take 16 = pts.take 16 := by
  have htake : (pts ++ [c]).take 16 = pts.take 16 :=
    List.take_append_of_le_length (by omega)
  have hlen : (pts ++ [c]).length = 21 := by simp [h]
  refine ⟨?_, ?_, htake⟩
  · unfold displace toUniforms
    rw [List.take_take, List.length_take, h]
    norm_num
  · unfold displace toUniforms
    rw [htake, hlen, h]
    norm_num

/-- The one nontrivial step behind C8: on `[0,1]` the GLSL `smoothstep`
through `(0,1)` is exactly the Hermite polynomial the elastic branch
writes out. -/
lemma smoothstep01_eq {t : ℝ} (h0 : 0 ≤ t) (h1 : t ≤ 1) :
    smoothstep 0 1 t = t * t * (3 - 2 * t) := by
  unfold smoothstep clampR
  rw [show (t - 0) / (1 - 0) = t by norm_num, min_eq_right h1, max_eq_right h0]

/-- A single loop iteration gives the same result under the smooth and
the elastic kernel: whenever the influence is computed at all, the raw
influence `t = 1 - d/radius` lies in `(0,1)`, where the smoothstep clamp
is the identity. -/
lemma warpStep_smooth_eq_elastic (p : Vec2) (g : ℝ) (n : ℕ) (w : Vec2)
    (c : ControlPoint) :
    warpStep p ⟨g, n, InterpKind.smooth⟩ w c
      = warpStep p ⟨g, n, InterpKind.elastic⟩ w c := by
  unfold warpStep
  by_cases hskip :
      c.radius ≤ length (vsub p c.position) ∨ length (vsub p c.position) < 0.001
  · rw [if_pos hskip, if_pos hskip]
  · rw [if_neg hskip, if_neg hskip]
    push_neg at hskip
    obtain ⟨hdr, hde⟩ := hskip
    have hr : (0:ℝ) < c.radius := lt_of_le_of_lt (by linarith) hdr
    have hfrac1 : length (vsub p c.position) / c.radius < 1 :=
      (div_lt_one hr).2 hdr
    have hfrac0 : 0 ≤ length (vsub p c.position) / c.radius :=
      div_nonneg (length_nonneg _) hr.le
    have hinfl :
        influenceOf InterpKind.smooth (1 - length (vsub p c.position) / c.radius)
          = influenceOf InterpKind.elastic
              (1 - length (vsub p c.position) / c.radius) := by
      unfold influenceOf
      exact smoothstep01_eq (by linarith) (by linarith)
    simp only [hinfl]

/-- C8: the smooth and elastic kernels compute the same influence curve —
on `[0,1]` the smoothstep equals `t·t·(3−2t)` — so `displace` returns
identical output under `kernel = smooth` and `kernel = elastic` for every
vertex, point list and global strength. -/
theorem smooth_elastic_same :
    (∀ t : ℝ, 0 ≤ t → t ≤ 1 → smoothstep 0 1 t = t * t * (3 - 2 * t)) ∧
    ∀ (p : Vec2) (pts : List ControlPoint) (g : ℝ),
      displace p pts ⟨g, InterpKind.smooth⟩
        = displace p pts ⟨g, InterpKind.elastic⟩ := by
  refine ⟨fun t h0 h1 => smoothstep01_eq h0 h1, fun p pts g => ?_⟩
  unfold displace applyWarp toUniforms
  simp only
  congr 1
  exact List.foldl_ext _ _ _
    (fun w i _ => warpStep_smooth_eq_elastic p g (min pts.length 16) w _)

/-- Witness for C8: the kernel identity evaluated at `t = 1/2` and the
evaluator equality at a concrete vertex. -/
theorem smooth_elastic_same_witness :
    smoothstep 0 1 (1/2) = (1/2) * (1/2) * (3 - 2 * (1/2)) ∧
    displace ⟨1/2, 1/2⟩ [] ⟨1, InterpKind.smooth⟩
      = displace ⟨1/2, 1/2⟩ [] ⟨1, InterpKind.elastic⟩ :=
  ⟨smooth_elastic_same.1 (1/2) (by norm_num) (by norm_num),
   smooth_elastic_same.2 ⟨1/2, 1/2⟩ [] 1⟩

/-- Witness for C1 on a concrete 20-point store. -/
theorem displace_cap_sixteen_witness :
    (List.replicate 20 (default : ControlPoint)).length = 20 ∧
    (displace ⟨1/2, 1/2⟩ (List.replicate 20 default) ⟨1, InterpKind.linear⟩
        = displace ⟨1/2, 1/2⟩ ((List.replicate 20 default).take 16)
            ⟨1, InterpKind.linear⟩ ∧
      displace ⟨1/2, 1/2⟩ (List.replicate 20 default ++ [default])
          ⟨1, InterpKind.linear⟩
        = displace ⟨1/2, 1/2⟩ (List.replicate 20 default)
            ⟨1, InterpKind.linear⟩ ∧
      (List.replicate 20 (default : ControlPoint) ++ [default]).take 16
        = (List.replicate 20 (default : ControlPoint)).take 16) :=
  ⟨by simp, displace_cap_sixteen _ _ _ _ (by simp)⟩

/-- Vertical distances evaluate without any square root. -/
lemma length_vsub_vert (x a b : ℝ) (h : b ≤ a) :
    length (vsub ⟨x, a⟩ ⟨x, b⟩) = a - b := by
  unfold vsub
  rw [show (⟨x - x, a - b⟩ : Vec2) = ⟨0, a - b⟩ by ext <;> norm_num]
  exact length_mk_zero (by linarith)

/-! ### Vector algebra support for the falloff analysis -/

lemma vsub_vadd_cancel (a b : Vec2) : vsub (vadd a b) a = b := by
  unfold vsub vadd
  ext <;> (simp only; ring)

lemma length_smul (s : ℝ) (v : Vec2) : length (smul s v) = |s| * length v := by
  unfold length smul
  simp only
  rw [show s * v.x * (s * v.x) + s * v.y * (s * v.y)
      = (s * s) * (v.x * v.x + v.y * v.y) by ring]
  rw [Real.sqrt_mul (mul_self_nonneg s), Real.sqrt_mul_self_eq_abs]

lemma normalize_mk_zero {a : ℝ} (ha : 0 < a) :
    normalize ⟨0, a⟩ = ⟨0, 1⟩ := by
  unfold normalize
  rw [length_mk_zero ha.le]
  ext <;> simp [ha.ne']

lemma normalize_smul_unit {d : ℝ} (hd : 0 < d) {u : Vec2} (hu : length u = 1) :
    normalize (smul d u) = u := by
  unfold normalize
  rw [length_smul, hu, abs_of_pos hd, mul_one]
  unfold smul
  ext <;> (simp only; rw [mul_div_cancel_left₀ _ hd.ne'])

lemma influenceOf_nonneg (k : InterpKind) {t : ℝ} (h0 : 0 ≤ t) (h1 : t ≤ 1) :
    0 ≤ influenceOf k t := by
  cases k with
  | linear => exact h0
  | smooth =>
    simp only [influenceOf]
    rw [smoothstep01_eq h0 h1]
    nlinarith
  | elastic =>
    simp only [influenceOf]
    nlinarith

/-- The Hermite cubic `t·t·(3−2t)` is monotone on `[0,1]`. -/
lemma cubicHermite_mono {a b : ℝ} (h0 : 0 ≤ a) (hab : a ≤ b) (hb : b ≤ 1) :
    a * a * (3 - 2 * a) ≤ b * b * (3 - 2 * b) := by
  nlinarith [mul_nonneg h0 (sub_nonneg.2 hab), mul_nonneg (sub_nonneg.2 hab) (sub_nonneg.2 hb),
    mul_nonneg h0 (sub_nonneg.2 hb), sq_nonneg (a - b), sq_nonneg (a + b - 1)]

/-- Every kernel's influence is monotone in the raw influence on `[0,1]`. -/
lemma influenceOf_mono (k : InterpKind) {a b : ℝ}
    (h0 : 0 ≤ a) (hab : a ≤ b) (hb : b ≤ 1) :
    influenceOf k a ≤ influenceOf k b := by
  cases k with
  | linear => exact hab
  | smooth =>
    simp only [influenceOf]
    rw [smoothstep01_eq h0 (hab.trans hb), smoothstep01_eq (h0.trans hab) hb]
    exact cubicHermite_mono h0 hab hb
  | elastic =>
    simp only [influenceOf]
    exact cubicHermite_mono h0 hab hb

/-- A stretch-point loop iteration on the ray `c.position + d·u` for a
unit direction `u`: the offset has length `d`, the guard passes for
`0.001 ≤ d < radius`, and the contribution is `s·u` with
`s = strength · influence · globalStrength · 0.1`. -/
lemma stretch_step_on_ray (c : ControlPoint) (params : WarpParams) (u : Vec2)
    (d : ℝ) (hkind : c.type = PointKind.stretch) (hu : length u = 1)
    (hd1 : 0.001 ≤ d) (hdr : d < c.radius) :
    warpStep (vadd c.position (smul d u)) (toUniforms params 1)
        (vadd c.position (smul d u)) c
      = vadd (vadd c.position (smul d u))
          (smul (c.strength * influenceOf params.kernel (1 - d / c.radius)
              * params.globalStrength * 0.1) u) := by
  have hd0 : (0:ℝ) < d := lt_of_lt_of_le (by norm_num) hd1
  have hoff : vsub (vadd c.position (smul d u)) c.position = smul d u :=
    vsub_vadd_cancel _ _
  have hlen : length (smul d u) = d := by
    rw [length_smul, hu, abs_of_pos hd0, mul_one]
  have hguard : ¬(c.radius ≤ d ∨ d < 0.001) := by
    push_neg
    exact ⟨hdr, hd1⟩
  simp only [warpStep, hoff, hlen, hguard, if_false, hkind, if_true, toUniforms]
  rw [normalize_smul_unit hd0 hu]

/-- `displaceWeb` on a singleton list is a single GLSL loop iteration
(and nothing else: no final clamp). -/
lemma displaceWeb_singleton (p : Vec2) (c : ControlPoint) (params : WarpParams) :
    displaceWeb p [c] params = warpStepWeb p params.globalStrength p c := by
  unfold displaceWeb applyWarpWeb
  rw [List.take_of_length_le (by simp)]
  simp only [List.length_singleton]
  rw [show List.range (min (min 1 16) 16) = [0] from rfl]
  simp

/-- An in-range GLSL loop iteration: the weight is always
`smoothstep(0,1, 1 - d/radius)` and the point is pushed away along
`normalize(offset)`, whatever its kind. -/
lemma warpStepWeb_in_range (p : Vec2) (c : ControlPoint) (g : ℝ)
    (h1 : 0 < length (vsub p c.position))
    (h2 : length (vsub p c.position) < c.radius) :
    warpStepWeb p g p c
      = vadd p (smul
          (c.strength * smoothstep 0 1 (1 - length (vsub p c.position) / c.radius)
            * g * 0.1)
          (normalize (vsub p c.position))) := by
  have hc : length (vsub p c.position) < c.radius
      ∧ 0 < length (vsub p c.position) := ⟨h2, h1⟩
  simp only [warpStepWeb, hc, and_self, if_true]

/-- The GLSL loop iteration on the ray `c.position + d·u` for a unit
direction `u`. -/
lemma warpStepWeb_on_ray (c : ControlPoint) (g : ℝ) (u : Vec2) (d : ℝ)
    (hu : length u = 1) (hd0 : 0 < d) (hdr : d < c.radius) :
    warpStepWeb (vadd c.position (smul d u)) g (vadd c.position (smul d u)) c
      = vadd (vadd c.position (smul d u))
          (smul (c.strength * smoothstep 0 1 (1 - d / c.radius) * g * 0.1) u) := by
  have hoff : vsub (vadd c.position (smul d u)) c.position = smul d u :=
    vsub_vadd_cancel _ _
  have hlen : length (smul d u) = d := by
    rw [length_smul, hu, abs_of_pos hd0, mul_one]
  have hc : d < c.radius ∧ 0 < d := ⟨hdr, hd0⟩
  simp only [warpStepWeb, hoff, hlen, hc, and_self, if_true]
  rw [normalize_smul_unit hd0 hu]

lemma smoothstep01_nonneg (t : ℝ) : 0 ≤ smoothstep 0 1 t := by
  unfold smoothstep clampR
  have h0 : 0 ≤ max 0 (min 1 ((t - 0) / (1 - 0))) := le_max_left _ _
  have h1 : max 0 (min 1 ((t - 0) / (1 - 0))) ≤ 1 :=
    max_le zero_le_one (min_le_left _ _)
  nlinarith

/-- Componentwise effect of the Metal final clamp along a ray: for a
coordinate with direction `ui`, vertex coordinate `cc + d·ui` inside
`[0,1]` and push scalar `s`, the absolute displaced offset is
`min(s·|ui|, slack to the boundary)`; both arguments are non-increasing
in `d`, so the clamped componentwise displacement is non-increasing. -/
lemma clamp_comp_mono (cc ui s1 s2 d1 d2 : ℝ)
    (hd : d1 ≤ d2) (hs2 : 0 ≤ s2) (hs12 : s2 ≤ s1)
    (h1a : 0 ≤ cc + d1 * ui) (h1b : cc + d1 * ui ≤ 1)
    (h2a : 0 ≤ cc + d2 * ui) (h2b : cc + d2 * ui ≤ 1) :
    |clampR (cc + d2 * ui + s2 * ui) 0 1 - (cc + d2 * ui)|
      ≤ |clampR (cc + d1 * ui + s1 * ui) 0 1 - (cc + d1 * ui)| := by
  have hs1 : 0 ≤ s1 := hs2.trans hs12
  have hform : ∀ p s : ℝ, clampR (p + s * ui) 0 1 - p
      = max (-p) (min (1 - p) (s * ui)) := by
    intro p s
    unfold clampR
    rw [← max_sub_sub_right, ← min_sub_sub_right,
      show (0:ℝ) - p = -p by ring, show p + s * ui - p = s * ui by ring]
  rw [hform, hform]
  rcases le_or_lt 0 ui with hu | hu
  · have e2 : max (-(cc + d2 * ui)) (min (1 - (cc + d2 * ui)) (s2 * ui))
        = min (1 - (cc + d2 * ui)) (s2 * ui) :=
      max_eq_right ((neg_nonpos.2 h2a).trans
        (le_min (by linarith) (mul_nonneg hs2 hu)))
    have e1 : max (-(cc + d1 * ui)) (min (1 - (cc + d1 * ui)) (s1 * ui))
        = min (1 - (cc + d1 * ui)) (s1 * ui) :=
      max_eq_right ((neg_nonpos.2 h1a).trans
        (le_min (by linarith) (mul_nonneg hs1 hu)))
    rw [e1, e2,
      abs_of_nonneg (le_min (by linarith) (mul_nonneg hs2 hu)),
      abs_of_nonneg (le_min (by linarith) (mul_nonneg hs1 hu))]
    exact min_le_min (by nlinarith) (by nlinarith)
  · have e2 : min (1 - (cc + d2 * ui)) (s2 * ui) = s2 * ui :=
      min_eq_right ((mul_nonpos_of_nonneg_of_nonpos hs2 hu.le).trans
        (by linarith))
    have e1 : min (1 - (cc + d1 * ui)) (s1 * ui) = s1 * ui :=
      min_eq_right ((mul_nonpos_of_nonneg_of_nonpos hs1 hu.le).trans
        (by linarith))
    rw [e1, e2,
      abs_of_nonpos (max_le (neg_nonpos.2 h2a)
        (mul_nonpos_of_nonneg_of_nonpos hs2 hu.le)),
      abs_of_nonpos (max_le (neg_nonpos.2 h1a)
        (mul_nonpos_of_nonneg_of_nonpos hs1 hu.le))]
    exact neg_le_neg (max_le_max (by nlinarith) (by nlinarith))

/-- Componentwise absolute domination gives norm domination. -/
lemma length_le_of_abs_le {a b : Vec2} (hx : |a.x| ≤ |b.x|)
    (hy : |a.y| ≤ |b.y|) : length a ≤ length b := by
  unfold length
  apply Real.sqrt_le_sqrt
  have h1 : a.x * a.x ≤ b.x * b.x := by
    rw [← abs_mul_abs_self a.x, ← abs_mul_abs_self b.x]
    exact mul_self_le_mul_self (abs_nonneg _) hx
  have h2 : a.y * a.y ≤ b.y * b.y := by
    rw [← abs_mul_abs_self a.y, ← abs_mul_abs_self b.y]
    exact mul_self_le_mul_self (abs_nonneg _) hy
  linarith

/-- Concrete evaluation of the web evaluator at the sample vertex
`(1/2, 21/40)` against a point of any kind at `(1/2, 1/2)` with radius
`0.1` and strength `1`, under any interpolation setting: the weight is
`smoothstep(0,1,3/4) = 27/32` and the vertex is pushed up to
`(1/2, 39/64)` regardless of the point kind and kernel selection. -/
lemma web_eval_sample (k : PointKind) (ik : InterpKind) :
    displaceWeb ⟨1/2, 21/40⟩ [⟨0, ⟨1/2, 1/2⟩, k, 1, 1/10, false⟩] ⟨1, ik⟩
      = ⟨1/2, 39/64⟩ := by
  have hv : vsub (⟨1/2, 21/40⟩ : Vec2) (⟨1/2, 1/2⟩ : Vec2) = ⟨0, 1/40⟩ := by
    unfold vsub
    ext <;> (simp only; norm_num)
  have hl : length (vsub (⟨1/2, 21/40⟩ : Vec2) (⟨1/2, 1/2⟩ : Vec2)) = 1/40 := by
    rw [hv, length_mk_zero (by norm_num)]
  have h1 : (0:ℝ) < length (vsub (⟨1/2, 21/40⟩ : Vec2) (⟨1/2, 1/2⟩ : Vec2)) := by
    rw [hl]
    norm_num
  have h2 : length (vsub (⟨1/2, 21/40⟩ : Vec2) (⟨1/2, 1/2⟩ : Vec2)) < (1:ℝ)/10 := by
    rw [hl]
    norm_num
  rw [displaceWeb_singleton]
  show warpStepWeb ⟨1/2, 21/40⟩ 1 ⟨1/2, 21/40⟩ ⟨0, ⟨1/2, 1/2⟩, k, 1, 1/10, false⟩
      = ⟨1/2, 39/64⟩
  rw [warpStepWeb_in_range ⟨1/2, 21/40⟩ ⟨0, ⟨1/2, 1/2⟩, k, 1, 1/10, false⟩ 1 h1 h2]
  dsimp only
  rw [hv, length_mk_zero (by norm_num), normalize_mk_zero (by norm_num),
    show (1:ℝ) - 1/40 / (1/10) = 3/4 by norm_num,
    smoothstep01_eq (by norm_num) (by norm_num)]
  unfold vadd smul
  ext <;> (simp only; norm_num)

/-- C2 (amended): the two evaluators weight differently.  For the Metal
evaluator, inside the influence range (distance at least the coincidence
epsilon 0.001 and below the radius) the applied weight is exactly the
selected kernel of the raw linear influence `t = 1 - d/radius`: `t` for
linear, `smoothstep(0,1,t)` for smooth, `t·t·(3−2t)` for elastic.  The
web evaluator always applies `smoothstep(0,1,t)` — the interpolation
setting is never uploaded, and `displaceWeb` returns identical output for
every kernel selection. -/
theorem influence_weight_spec :
    (∀ (p : Vec2) (c : ControlPoint) (params : WarpParams),
      0.001 ≤ length (vsub p c.position) →
      length (vsub p c.position) < c.radius →
      displace p [c] params =
        clampUnit
          (let t := 1 - length (vsub p c.position) / c.radius
           let w := match params.kernel with
             | InterpKind.linear => t
             | InterpKind.smooth => smoothstep 0 1 t
             | InterpKind.elastic => t * t * (3 - 2 * t)
           if c.type = PointKind.stretch then
             vadd p (smul (c.strength * w * params.globalStrength * 0.1)
               (normalize (vsub p c.position)))
           else
             vsub p (smul (c.strength * w * params.globalStrength * 0.05)
               (vsub p c.position)))) ∧
    (∀ (p : Vec2) (c : ControlPoint) (params : WarpParams),
      0 < length (vsub p c.position) →
      length (vsub p c.position) < c.radius →
      displaceWeb p [c] params =
        vadd p (smul
          (c.strength
              * smoothstep 0 1 (1 - length (vsub p c.position) / c.radius)
              * params.globalStrength * 0.1)
          (normalize (vsub p c.position)))) ∧
    (∀ (p : Vec2) (pts : List ControlPoint) (g : ℝ) (k1 k2 : InterpKind),
      displaceWeb p pts ⟨g, k1⟩ = displaceWeb p pts ⟨g, k2⟩) := by
  refine ⟨fun p c params h1 h2 => ?_, fun p c params h1 h2 => ?_,
    fun p pts g k1 k2 => rfl⟩
  · obtain ⟨g, k⟩ := params
    have hguard : ¬(c.radius ≤ length (vsub p c.position)
        ∨ length (vsub p c.position) < 0.001) := by
      push_neg
      exact ⟨h2, h1⟩
    rw [displace_singleton]
    congr 1
    simp only [warpStep, hguard, if_false, influenceOf, toUniforms]
  · rw [displaceWeb_singleton, warpStepWeb_in_range p c params.globalStrength h1 h2]

/-- C2 counterexample: with `kernel = linear` selected, the web evaluator
does not apply the weight `t` — at `t = 3/4` it displaces the vertex to
`(1/2, 39/64)` (smoothstep weight `27/32`), while the claimed linear
weight would displace it to `(1/2, 3/5)`, and `39/64 ≠ 3/5`. -/
theorem linear_kernel_not_applied_web :
    displaceWeb ⟨1/2, 21/40⟩ [⟨0, ⟨1/2, 1/2⟩, PointKind.stretch, 1, 1/10, false⟩]
        ⟨1, InterpKind.linear⟩ = ⟨1/2, 39/64⟩ ∧
    vadd ⟨1/2, 21/40⟩ (smul
        (1 * (1 - length (vsub (⟨1/2, 21/40⟩ : Vec2) (⟨1/2, 1/2⟩ : Vec2)) / (1/10))
          * 1 * 0.1)
        (normalize (vsub (⟨1/2, 21/40⟩ : Vec2) (⟨1/2, 1/2⟩ : Vec2))))
      = ⟨1/2, 3/5⟩ ∧
    (⟨1/2, 39/64⟩ : Vec2) ≠ ⟨1/2, 3/5⟩ := by
  have hv : vsub (⟨1/2, 21/40⟩ : Vec2) (⟨1/2, 1/2⟩ : Vec2) = ⟨0, 1/40⟩ := by
    unfold vsub
    ext <;> (simp only; norm_num)
  refine ⟨web_eval_sample PointKind.stretch InterpKind.linear, ?_, ?_⟩
  · rw [hv, length_mk_zero (by norm_num), normalize_mk_zero (by norm_num)]
    unfold vadd smul
    ext <;> (simp only; norm_num)
  · intro h
    have hy := congrArg Vec2.y h
    simp only at hy
    norm_num at hy

/-- Witness for the amended C2: the Metal half at vertical distance
`0.05` with the linear kernel, the web half at the same vertex. -/
theorem influence_weight_spec_witness :
    (0.001 ≤ length (vsub (⟨1/2, 11/20⟩ : Vec2) (⟨1/2, 1/2⟩ : Vec2)) ∧
     length (vsub (⟨1/2, 11/20⟩ : Vec2) (⟨1/2, 1/2⟩ : Vec2)) < 1/10 ∧
     displace ⟨1/2, 11/20⟩ [⟨0, ⟨1/2, 1/2⟩, PointKind.stretch, 1, 1/10, false⟩]
         ⟨1, InterpKind.linear⟩ =
       clampUnit
         (let t := 1 - length (vsub (⟨1/2, 11/20⟩ : Vec2) (⟨1/2, 1/2⟩ : Vec2)) / (1/10)
          let w := match InterpKind.linear with
            | InterpKind.linear => t
            | InterpKind.smooth => smoothstep 0 1 t
            | InterpKind.elastic => t * t * (3 - 2 * t)
          if PointKind.stretch = PointKind.stretch then
            vadd ⟨1/2, 11/20⟩ (smul (1 * w * 1 * 0.1)
              (normalize (vsub (⟨1/2, 11/20⟩ : Vec2) (⟨1/2, 1/2⟩ : Vec2))))
          else
            vsub ⟨1/2, 11/20⟩ (smul (1 * w * 1 * 0.05)
              (vsub (⟨1/2, 11/20⟩ : Vec2) (⟨1/2, 1/2⟩ : Vec2))))) ∧
    (0 < length (vsub (⟨1/2, 11/20⟩ : Vec2) (⟨1/2, 1/2⟩ : Vec2)) ∧
     displaceWeb ⟨1/2, 11/20⟩ [⟨0, ⟨1/2, 1/2⟩, PointKind.stretch, 1, 1/10, false⟩]
         ⟨1, InterpKind.smooth⟩ =
       vadd ⟨1/2, 11/20⟩ (smul
         (1 * smoothstep 0 1
             (1 - length (vsub (⟨1/2, 11/20⟩ : Vec2) (⟨1/2, 1/2⟩ : Vec2)) / (1/10))
           * 1 * 0.1)
         (normalize (vsub (⟨1/2, 11/20⟩ : Vec2) (⟨1/2, 1/2⟩ : Vec2))))) := by
  have hl : length (vsub (⟨1/2, 11/20⟩ : Vec2) (⟨1/2, 1/2⟩ : Vec2)) = 1/20 := by
    rw [length_vsub_vert _ _ _ (by norm_num)]
    norm_num
  have h1 : (0.001:ℝ) ≤ length (vsub (⟨1/2, 11/20⟩ : Vec2) (⟨1/2, 1/2⟩ : Vec2)) := by
    rw [hl]
    norm_num
  have h2 : length (vsub (⟨1/2, 11/20⟩ : Vec2) (⟨1/2, 1/2⟩ : Vec2)) < (1:ℝ)/10 := by
    rw [hl]
    norm_num
  have h0 : (0:ℝ) < length (vsub (⟨1/2, 11/20⟩ : Vec2) (⟨1/2, 1/2⟩ : Vec2)) := by
    rw [hl]
    norm_num
  exact ⟨⟨h1, h2, influence_weight_spec.1 ⟨1/2, 11/20⟩
      ⟨0, ⟨1/2, 1/2⟩, PointKind.stretch, 1, 1/10, false⟩ ⟨1, InterpKind.linear⟩ h1 h2⟩,
    ⟨h0, influence_weight_spec.2.1 ⟨1/2, 11/20⟩
      ⟨0, ⟨1/2, 1/2⟩, PointKind.stretch, 1, 1/10, false⟩ ⟨1, InterpKind.smooth⟩ h0 h2⟩⟩

/-- C4 (amended): only the Metal evaluator implements anchors.  For an
anchor point within influence range (above the coincidence epsilon), the
Metal contribution subtracts `offset · strength · influence ·
globalStrength · 0.05` — proportional to the raw offset vector, pulling
the vertex toward the anchor.  The web shader has no anchor branch and no
`type` uniform: an anchor-kind point receives the stretch treatment and
pushes the vertex away along `normalize(offset)`. -/
theorem anchor_contribution :
    (∀ (p : Vec2) (c : ControlPoint) (params : WarpParams),
      c.type = PointKind.anchor →
      0.001 ≤ length (vsub p c.position) →
      length (vsub p c.position) < c.radius →
      displace p [c] params =
        clampUnit (vsub p (smul
          (c.strength
              * influenceOf params.kernel (1 - length (vsub p c.position) / c.radius)
              * params.globalStrength * 0.05)
          (vsub p c.position)))) ∧
    (∀ (p : Vec2) (c : ControlPoint) (params : WarpParams),
      c.type = PointKind.anchor →
      0 < length (vsub p c.position) →
      length (vsub p c.position) < c.radius →
      displaceWeb p [c] params =
        vadd p (smul
          (c.strength
              * smoothstep 0 1 (1 - length (vsub p c.position) / c.radius)
              * params.globalStrength * 0.1)
          (normalize (vsub p c.position)))) := by
  constructor
  · intro p c params hk h1 h2
    have hguard : ¬(c.radius ≤ length (vsub p c.position)
        ∨ length (vsub p c.position) < 0.001) := by
      push_neg
      exact ⟨h2, h1⟩
    rw [displace_singleton]
    congr 1
    simp only [warpStep, hguard, if_false, hk, toUniforms]
    simp
  · intro p c params _ h1 h2
    rw [displaceWeb_singleton, warpStepWeb_in_range p c params.globalStrength h1 h2]

/-- C4 counterexample: the web evaluator pushes an anchor-kind point's
neighbourhood away.  The anchor sits at `(1/2, 1/2)`; the vertex at
`(1/2, 21/40)` (within range) is moved to `(1/2, 39/64)` — strictly
further from the anchor — instead of being pulled toward it. -/
theorem web_anchor_pushed_away :
    (⟨0, ⟨1/2, 1/2⟩, PointKind.anchor, 1, 1/10, false⟩ : ControlPoint).type
        = PointKind.anchor ∧
    0 < length (vsub (⟨1/2, 21/40⟩ : Vec2) (⟨1/2, 1/2⟩ : Vec2)) ∧
    length (vsub (⟨1/2, 21/40⟩ : Vec2) (⟨1/2, 1/2⟩ : Vec2)) < 1/10 ∧
    displaceWeb ⟨1/2, 21/40⟩ [⟨0, ⟨1/2, 1/2⟩, PointKind.anchor, 1, 1/10, false⟩]
        ⟨1, InterpKind.smooth⟩ = ⟨1/2, 39/64⟩ ∧
    ((1:ℝ)/2 < 21/40 ∧ (21:ℝ)/40 < 39/64) := by
  have hl : length (vsub (⟨1/2, 21/40⟩ : Vec2) (⟨1/2, 1/2⟩ : Vec2)) = 1/40 := by
    rw [length_vsub_vert _ _ _ (by norm_num)]
    norm_num
  exact ⟨rfl, by rw [hl]; norm_num, by rw [hl]; norm_num,
    web_eval_sample PointKind.anchor InterpKind.smooth,
    by norm_num, by norm_num⟩

/-- Witness for the amended C4: an anchor point of radius `0.1` at the
centre; the Metal half at vertical distance `0.05`, the web half at
vertical distance `0.025`. -/
theorem anchor_contribution_witness :
    ((⟨0, ⟨1/2, 1/2⟩, PointKind.anchor, 1, 1/10, false⟩ : ControlPoint).type
        = PointKind.anchor ∧
     0.001 ≤ length (vsub (⟨1/2, 11/20⟩ : Vec2) (⟨1/2, 1/2⟩ : Vec2)) ∧
     length (vsub (⟨1/2, 11/20⟩ : Vec2) (⟨1/2, 1/2⟩ : Vec2)) < 1/10 ∧
     displace ⟨1/2, 11/20⟩ [⟨0, ⟨1/2, 1/2⟩, PointKind.anchor, 1, 1/10, false⟩]
         ⟨1, InterpKind.smooth⟩ =
       clampUnit (vsub ⟨1/2, 11/20⟩ (smul
         (1 * influenceOf InterpKind.smooth
             (1 - length (vsub (⟨1/2, 11/20⟩ : Vec2) (⟨1/2, 1/2⟩ : Vec2)) / (1/10))
             * 1 * 0.05)
         (vsub (⟨1/2, 11/20⟩ : Vec2) (⟨1/2, 1/2⟩ : Vec2))))) ∧
    (0 < length (vsub (⟨1/2, 21/40⟩ : Vec2) (⟨1/2, 1/2⟩ : Vec2)) ∧
     displaceWeb ⟨1/2, 21/40⟩ [⟨0, ⟨1/2, 1/2⟩, PointKind.anchor, 1, 1/10, false⟩]
         ⟨1, InterpKind.smooth⟩ =
       vadd ⟨1/2, 21/40⟩ (smul
         (1 * smoothstep 0 1
             (1 - length (vsub (⟨1/2, 21/40⟩ : Vec2) (⟨1/2, 1/2⟩ : Vec2)) / (1/10))
           * 1 * 0.1)
         (normalize (vsub (⟨1/2, 21/40⟩ : Vec2) (⟨1/2, 1/2⟩ : Vec2))))) := by
  have hl : length (vsub (⟨1/2, 11/20⟩ : Vec2) (⟨1/2, 1/2⟩ : Vec2)) = 1/20 := by
    rw [length_vsub_vert _ _ _ (by norm_num)]
    norm_num
  have hl2 : length (vsub (⟨1/2, 21/40⟩ : Vec2) (⟨1/2, 1/2⟩ : Vec2)) = 1/40 := by
    rw [length_vsub_vert _ _ _ (by norm_num)]
    norm_num
  have h1 : (0.001:ℝ) ≤ length (vsub (⟨1/2, 11/20⟩ : Vec2) (⟨1/2, 1/2⟩ : Vec2)) := by
    rw [hl]
    norm_num
  have h2 : length (vsub (⟨1/2, 11/20⟩ : Vec2) (⟨1/2, 1/2⟩ : Vec2)) < (1:ℝ)/10 := by
    rw [hl]
    norm_num
  have h0 : (0:ℝ) < length (vsub (⟨1/2, 21/40⟩ : Vec2) (⟨1/2, 1/2⟩ : Vec2)) := by
    rw [hl2]
    norm_num
  have h2b : length (vsub (⟨1/2, 21/40⟩ : Vec2) (⟨1/2, 1/2⟩ : Vec2)) < (1:ℝ)/10 := by
    rw [hl2]
    norm_num
  exact ⟨⟨rfl, h1, h2, anchor_contribution.1 ⟨1/2, 11/20⟩
      ⟨0, ⟨1/2, 1/2⟩, PointKind.anchor, 1, 1/10, false⟩ ⟨1, InterpKind.smooth⟩
      rfl h1 h2⟩,
    ⟨h0, anchor_contribution.2 ⟨1/2, 21/40⟩
      ⟨0, ⟨1/2, 1/2⟩, PointKind.anchor, 1, 1/10, false⟩ ⟨1, InterpKind.smooth⟩
      rfl h0 h2b⟩⟩

/-- C3 counterexample: the web `applyWarp` has no final clamp — a vertex
at `(1/2, 39/40)` near the top edge, pushed by a stretch point at
`(1/2, 19/20)`, is displaced to `y = 339/320 > 1`, outside the unit
square. -/
theorem web_displace_escapes_unit_square :
    1 < (displaceWeb ⟨1/2, 39/40⟩
        [⟨0, ⟨1/2, 19/20⟩, PointKind.stretch, 1, 1/10, false⟩]
        ⟨1, InterpKind.smooth⟩).y := by
  have hv : vsub (⟨1/2, 39/40⟩ : Vec2) (⟨1/2, 19/20⟩ : Vec2) = ⟨0, 1/40⟩ := by
    unfold vsub
    ext <;> (simp only; norm_num)
  have h1 : (0:ℝ) < length (vsub (⟨1/2, 39/40⟩ : Vec2) (⟨1/2, 19/20⟩ : Vec2)) := by
    rw [hv, length_mk_zero (by norm_num)]
    norm_num
  have h2 : length (vsub (⟨1/2, 39/40⟩ : Vec2) (⟨1/2, 19/20⟩ : Vec2)) < (1:ℝ)/10 := by
    rw [hv, length_mk_zero (by norm_num)]
    norm_num
  rw [displaceWeb_singleton]
  show 1 < (warpStepWeb ⟨1/2, 39/40⟩ 1 ⟨1/2, 39/40⟩
    ⟨0, ⟨1/2, 19/20⟩, PointKind.stretch, 1, 1/10, false⟩).y
  rw [warpStepWeb_in_range ⟨1/2, 39/40⟩
    ⟨0, ⟨1/2, 19/20⟩, PointKind.stretch, 1, 1/10, false⟩ 1 h1 h2]
  dsimp only
  rw [hv, length_mk_zero (by norm_num), normalize_mk_zero (by norm_num),
    show (1:ℝ) - 1/40 / (1/10) = 3/4 by norm_num,
    smoothstep01_eq (by norm_num) (by norm_num)]
  unfold vadd smul
  simp only
  norm_num

/-- C7 counterexample: on the Metal evaluator, the vertex at distance
`1/2000` (below the coincidence epsilon `0.001`) from the stretch point
at `(1/2,1/2)` is not displaced at all, while the vertex at distance
`1/20` is displaced by `1/20`; on the web evaluator, the vertex at
distance `0` (the skip guard `distance > 0.0`) is not displaced while the
vertex at distance `1/20` is displaced by `1/20`.  On both evaluators the
displacement magnitude strictly increases as the distance to the control
point increases from `0` toward the radius. -/
theorem falloff_not_monotone :
    (length (vsub (⟨1/2, 1/2 + 1/2000⟩ : Vec2) (⟨1/2, 1/2⟩ : Vec2))
      < length (vsub (⟨1/2, 1/2 + 1/20⟩ : Vec2) (⟨1/2, 1/2⟩ : Vec2)) ∧
    length (vsub (⟨1/2, 1/2 + 1/20⟩ : Vec2) (⟨1/2, 1/2⟩ : Vec2)) < (1/10 : ℝ) ∧
    length (vsub (displace ⟨1/2, 1/2 + 1/2000⟩
        [⟨0, ⟨1/2, 1/2⟩, PointKind.stretch, 1, 1/10, false⟩]
        ⟨1, InterpKind.linear⟩) ⟨1/2, 1/2 + 1/2000⟩)
      < length (vsub (displace ⟨1/2, 1/2 + 1/20⟩
        [⟨0, ⟨1/2, 1/2⟩, PointKind.stretch, 1, 1/10, false⟩]
        ⟨1, InterpKind.linear⟩) ⟨1/2, 1/2 + 1/20⟩)) ∧
    (length (vsub (⟨1/2, 1/2⟩ : Vec2) (⟨1/2, 1/2⟩ : Vec2))
      < length (vsub (⟨1/2, 1/2 + 1/20⟩ : Vec2) (⟨1/2, 1/2⟩ : Vec2)) ∧
    length (vsub (displaceWeb ⟨1/2, 1/2⟩
        [⟨0, ⟨1/2, 1/2⟩, PointKind.stretch, 1, 1/10, false⟩]
        ⟨1, InterpKind.smooth⟩) ⟨1/2, 1/2⟩)
      < length (vsub (displaceWeb ⟨1/2, 1/2 + 1/20⟩
        [⟨0, ⟨1/2, 1/2⟩, PointKind.stretch, 1, 1/10, false⟩]
        ⟨1, InterpKind.smooth⟩) ⟨1/2, 1/2 + 1/20⟩)) := by
  have hl1 : length (vsub (⟨1/2, 1/2 + 1/2000⟩ : Vec2) (⟨1/2, 1/2⟩ : Vec2))
      = 1/2000 := by
    rw [length_vsub_vert _ _ _ (by norm_num)]
    norm_num
  have hl2 : length (vsub (⟨1/2, 1/2 + 1/20⟩ : Vec2) (⟨1/2, 1/2⟩ : Vec2))
      = 1/20 := by
    rw [length_vsub_vert _ _ _ (by norm_num)]
    norm_num
  have hv2 : vsub (⟨1/2, 1/2 + 1/20⟩ : Vec2) (⟨1/2, 1/2⟩ : Vec2)
      = ⟨0, 1/20⟩ := by
    unfold vsub
    ext <;> (simp only; norm_num)
  have hz : vsub (⟨1/2, 1/2⟩ : Vec2) (⟨1/2, 1/2⟩ : Vec2) = ⟨0, 0⟩ := by
    unfold vsub
    ext <;> (simp only; norm_num)
  have e1 : displace ⟨1/2, 1/2 + 1/2000⟩
      [⟨0, ⟨1/2, 1/2⟩, PointKind.stretch, 1, 1/10, false⟩]
      ⟨1, InterpKind.linear⟩ = ⟨1/2, 1/2 + 1/2000⟩ := by
    rw [displace_singleton]
    have hstep : warpStep ⟨1/2, 1/2 + 1/2000⟩
        (toUniforms ⟨1, InterpKind.linear⟩ 1) ⟨1/2, 1/2 + 1/2000⟩
        ⟨0, ⟨1/2, 1/2⟩, PointKind.stretch, 1, 1/10, false⟩
        = ⟨1/2, 1/2 + 1/2000⟩ := by
      simp only [warpStep]
      rw [if_pos (Or.inr (by rw [hl1]; norm_num))]
    rw [hstep]
    exact clampUnit_eq_self (by norm_num) (by norm_num) (by norm_num) (by norm_num)
  have e2 : displace ⟨1/2, 1/2 + 1/20⟩
      [⟨0, ⟨1/2, 1/2⟩, PointKind.stretch, 1, 1/10, false⟩]
      ⟨1, InterpKind.linear⟩ = ⟨1/2, 3/5⟩ := by
    rw [displace_singleton]
    have hstep : warpStep ⟨1/2, 1/2 + 1/20⟩
        (toUniforms ⟨1, InterpKind.linear⟩ 1) ⟨1/2, 1/2 + 1/20⟩
        ⟨0, ⟨1/2, 1/2⟩, PointKind.stretch, 1, 1/10, false⟩
        = ⟨1/2, 3/5⟩ := by
      simp only [warpStep, hv2, length_mk_zero (by norm_num : (0:ℝ) ≤ 1/20)]
      rw [if_neg (by push_neg; constructor <;> norm_num)]
      simp only [influenceOf, toUniforms]
      rw [normalize_mk_zero (by norm_num)]
      unfold vadd smul
      ext <;> (simp only; norm_num)
    rw [hstep]
    exact clampUnit_eq_self (by norm_num) (by norm_num) (by norm_num) (by norm_num)
  have e3 : displaceWeb ⟨1/2, 1/2⟩
      [⟨0, ⟨1/2, 1/2⟩, PointKind.stretch, 1, 1/10, false⟩]
      ⟨1, InterpKind.smooth⟩ = ⟨1/2, 1/2⟩ := by
    rw [displaceWeb_singleton]
    show warpStepWeb ⟨1/2, 1/2⟩ 1 ⟨1/2, 1/2⟩
      ⟨0, ⟨1/2, 1/2⟩, PointKind.stretch, 1, 1/10, false⟩ = ⟨1/2, 1/2⟩
    simp only [warpStepWeb, hz, length_mk_zero le_rfl]
    rw [if_neg (by norm_num)]
  have e4 : displaceWeb ⟨1/2, 1/2 + 1/20⟩
      [⟨0, ⟨1/2, 1/2⟩, PointKind.stretch, 1, 1/10, false⟩]
      ⟨1, InterpKind.smooth⟩ = ⟨1/2, 3/5⟩ := by
    have h1 : (0:ℝ) < length (vsub (⟨1/2, 1/2 + 1/20⟩ : Vec2) (⟨1/2, 1/2⟩ : Vec2)) := by
      rw [hl2]
      norm_num
    have h2 : length (vsub (⟨1/2, 1/2 + 1/20⟩ : Vec2) (⟨1/2, 1/2⟩ : Vec2)) < (1:ℝ)/10 := by
      rw [hl2]
      norm_num
    rw [displaceWeb_singleton]
    show warpStepWeb ⟨1/2, 1/2 + 1/20⟩ 1 ⟨1/2, 1/2 + 1/20⟩
      ⟨0, ⟨1/2, 1/2⟩, PointKind.stretch, 1, 1/10, false⟩ = ⟨1/2, 3/5⟩
    rw [warpStepWeb_in_range ⟨1/2, 1/2 + 1/20⟩
      ⟨0, ⟨1/2, 1/2⟩, PointKind.stretch, 1, 1/10, false⟩ 1 h1 h2]
    dsimp only
    rw [hv2, length_mk_zero (by norm_num), normalize_mk_zero (by norm_num),
      show (1:ℝ) - 1/20 / (1/10) = 1/2 by norm_num,
      smoothstep01_eq (by norm_num) (by norm_num)]
    unfold vadd smul
    ext <;> (simp only; norm_num)
  refine ⟨⟨by rw [hl1, hl2]; norm_num, by rw [hl2]; norm_num, ?_⟩,
    ⟨?_, ?_⟩⟩
  · rw [e1, e2]
    have hzz : vsub (⟨1/2, 1/2 + 1/2000⟩ : Vec2) (⟨1/2, 1/2 + 1/2000⟩ : Vec2)
        = ⟨0, 0⟩ := by
      unfold vsub
      ext <;> (simp only; norm_num)
    rw [hzz, length_mk_zero le_rfl,
      length_vsub_vert _ _ _ (by norm_num : (1:ℝ)/2 + 1/20 ≤ 3/5)]
    norm_num
  · rw [hz, length_mk_zero le_rfl, hl2]
    norm_num
  · rw [e3, e4, hz, length_mk_zero le_rfl,
      length_vsub_vert _ _ _ (by norm_num : (1:ℝ)/2 + 1/20 ≤ 3/5)]
    norm_num

/-- C7 (amended): for a single stretch point, every kernel and vertices
along a fixed ray from the point, the displacement magnitude is
non-increasing in the distance over the range where the point is active:
on the Metal evaluator over `[0.001, radius)` for ray points inside the
unit square (the final clamp never breaks monotonicity there — each
clamped component is the minimum of the raw push and the boundary slack,
both non-increasing along the ray); on the web evaluator over
`(0, radius)` with no clamp at all.  Below the skip guard (Metal:
distance `< 0.001`; web: distance `= 0`) the contribution is zero, so the
magnitude is not monotone over the whole range from `0` to the radius. -/
theorem falloff_monotone :
    (∀ (c : ControlPoint) (params : WarpParams) (u : Vec2) (d1 d2 : ℝ),
      c.type = PointKind.stretch → length u = 1 →
      0 ≤ c.strength → 0 ≤ params.globalStrength →
      0.001 ≤ d1 → d1 ≤ d2 → d2 < c.radius →
      inUnitSquare (vadd c.position (smul d1 u)) →
      inUnitSquare (vadd c.position (smul d2 u)) →
      length (vsub (displace (vadd c.position (smul d2 u)) [c] params)
          (vadd c.position (smul d2 u)))
        ≤ length (vsub (displace (vadd c.position (smul d1 u)) [c] params)
          (vadd c.position (smul d1 u)))) ∧
    (∀ (c : ControlPoint) (params : WarpParams) (u : Vec2) (d1 d2 : ℝ),
      length u = 1 → 0 ≤ c.strength → 0 ≤ params.globalStrength →
      0 < d1 → d1 ≤ d2 → d2 < c.radius →
      length (vsub (displaceWeb (vadd c.position (smul d2 u)) [c] params)
          (vadd c.position (smul d2 u)))
        ≤ length (vsub (displaceWeb (vadd c.position (smul d1 u)) [c] params)
          (vadd c.position (smul d1 u)))) := by
  constructor
  · intro c params u d1 d2 hkind hu hs hg he h12 h2r hsq1 hsq2
    have he2 : (0.001:ℝ) ≤ d2 := he.trans h12
    have h1r : d1 < c.radius := lt_of_le_of_lt h12 h2r
    have hr : (0:ℝ) < c.radius := lt_of_le_of_lt (by linarith) h2r
    have ht1a : 0 ≤ 1 - d1 / c.radius := by
      have : d1 / c.radius < 1 := (div_lt_one hr).2 h1r
      linarith
    have ht1b : 1 - d1 / c.radius ≤ 1 := by
      have : 0 ≤ d1 / c.radius := div_nonneg (by linarith) hr.le
      linarith
    have ht2a : 0 ≤ 1 - d2 / c.radius := by
      have : d2 / c.radius < 1 := (div_lt_one hr).2 h2r
      linarith
    have ht2b : 1 - d2 / c.radius ≤ 1 := by
      have : 0 ≤ d2 / c.radius := div_nonneg (by linarith) hr.le
      linarith
    have htle : 1 - d2 / c.radius ≤ 1 - d1 / c.radius := by
      have : d1 / c.radius ≤ d2 / c.radius := by gcongr
      linarith
    have hs2 : 0 ≤ c.strength * influenceOf params.kernel (1 - d2 / c.radius)
        * params.globalStrength * 0.1 := by
      have := influenceOf_nonneg params.kernel ht2a ht2b
      positivity
    have hs12 : c.strength * influenceOf params.kernel (1 - d2 / c.radius)
          * params.globalStrength * 0.1
        ≤ c.strength * influenceOf params.kernel (1 - d1 / c.radius)
          * params.globalStrength * 0.1 := by
      have hmono := influenceOf_mono params.kernel ht2a htle ht1b
      apply mul_le_mul_of_nonneg_right _ (by norm_num : (0:ℝ) ≤ 0.1)
      apply mul_le_mul_of_nonneg_right _ hg
      exact mul_le_mul_of_nonneg_left hmono hs
    rw [displace_singleton, displace_singleton,
      stretch_step_on_ray c params u d1 hkind hu he h1r,
      stretch_step_on_ray c params u d2 hkind hu he2 h2r]
    simp only [inUnitSquare, vadd, smul] at hsq1 hsq2
    obtain ⟨hx1a, hx1b, hy1a, hy1b⟩ := hsq1
    obtain ⟨hx2a, hx2b, hy2a, hy2b⟩ := hsq2
    apply length_le_of_abs_le
    · simp only [vsub, clampUnit, vadd, smul]
      exact clamp_comp_mono c.position.x u.x _ _ d1 d2 h12 hs2 hs12
        hx1a hx1b hx2a hx2b
    · simp only [vsub, clampUnit, vadd, smul]
      exact clamp_comp_mono c.position.y u.y _ _ d1 d2 h12 hs2 hs12
        hy1a hy1b hy2a hy2b
  · intro c params u d1 d2 hu hs hg hd1 h12 h2r
    have hd2 : (0:ℝ) < d2 := lt_of_lt_of_le hd1 h12
    have h1r : d1 < c.radius := lt_of_le_of_lt h12 h2r
    have hr : (0:ℝ) < c.radius := lt_trans hd2 h2r
    have ht1a : 0 ≤ 1 - d1 / c.radius := by
      have : d1 / c.radius < 1 := (div_lt_one hr).2 h1r
      linarith
    have ht1b : 1 - d1 / c.radius ≤ 1 := by
      have : 0 ≤ d1 / c.radius := div_nonneg hd1.le hr.le
      linarith
    have ht2a : 0 ≤ 1 - d2 / c.radius := by
      have : d2 / c.radius < 1 := (div_lt_one hr).2 h2r
      linarith
    have ht2b : 1 - d2 / c.radius ≤ 1 := by
      have : 0 ≤ d2 / c.radius := div_nonneg hd2.le hr.le
      linarith
    have htle : 1 - d2 / c.radius ≤ 1 - d1 / c.radius := by
      have : d1 / c.radius ≤ d2 / c.radius := by gcongr
      linarith
    have hn1 : 0 ≤ c.strength * smoothstep 0 1 (1 - d1 / c.radius)
        * params.globalStrength * 0.1 := by
      have := smoothstep01_nonneg (1 - d1 / c.radius)
      positivity
    have hn2 : 0 ≤ c.strength * smoothstep 0 1 (1 - d2 / c.radius)
        * params.globalStrength * 0.1 := by
      have := smoothstep01_nonneg (1 - d2 / c.radius)
      positivity
    rw [displaceWeb_singleton, displaceWeb_singleton,
      warpStepWeb_on_ray c params.globalStrength u d1 hu hd1 h1r,
      warpStepWeb_on_ray c params.globalStrength u d2 hu hd2 h2r,
      vsub_vadd_cancel, vsub_vadd_cancel, length_smul, length_smul, hu,
      mul_one, mul_one, abs_of_nonneg hn1, abs_of_nonneg hn2]
    have hmono : smoothstep 0 1 (1 - d2 / c.radius)
        ≤ smoothstep 0 1 (1 - d1 / c.radius) := by
      rw [smoothstep01_eq ht2a ht2b, smoothstep01_eq ht1a ht1b]
      exact cubicHermite_mono ht2a htle ht1b
    apply mul_le_mul_of_nonneg_right _ (by norm_num : (0:ℝ) ≤ 0.1)
    apply mul_le_mul_of_nonneg_right _ hg
    exact mul_le_mul_of_nonneg_left hmono hs

/-- Witness for the amended C7 theorem: the stretch point at `(1/2,1/2)`
with radius `0.1`, the vertical unit direction, distances `1/50 ≤ 1/20`;
the Metal half with the linear kernel, the web half with the smooth
setting. -/
theorem falloff_monotone_witness :
    (0.001 : ℝ) ≤ 1/50 ∧ (1/20 : ℝ) < 1/10 ∧
    inUnitSquare (vadd (⟨1/2, 1/2⟩ : Vec2) (smul (1/50) ⟨0, 1⟩)) ∧
    inUnitSquare (vadd (⟨1/2, 1/2⟩ : Vec2) (smul (1/20) ⟨0, 1⟩)) ∧
    length (vsub (displace (vadd (⟨1/2, 1/2⟩ : Vec2) (smul (1/20) ⟨0, 1⟩))
        [⟨0, ⟨1/2, 1/2⟩, PointKind.stretch, 1, 1/10, false⟩]
        ⟨1, InterpKind.linear⟩)
        (vadd (⟨1/2, 1/2⟩ : Vec2) (smul (1/20) ⟨0, 1⟩)))
      ≤ length (vsub (displace (vadd (⟨1/2, 1/2⟩ : Vec2) (smul (1/50) ⟨0, 1⟩))
        [⟨0, ⟨1/2, 1/2⟩, PointKind.stretch, 1, 1/10, false⟩]
        ⟨1, InterpKind.linear⟩)
        (vadd (⟨1/2, 1/2⟩ : Vec2) (smul (1/50) ⟨0, 1⟩))) ∧
    length (vsub (displaceWeb (vadd (⟨1/2, 1/2⟩ : Vec2) (smul (1/20) ⟨0, 1⟩))
        [⟨0, ⟨1/2, 1/2⟩, PointKind.stretch, 1, 1/10, false⟩]
        ⟨1, InterpKind.smooth⟩)
        (vadd (⟨1/2, 1/2⟩ : Vec2) (smul (1/20) ⟨0, 1⟩)))
      ≤ length (vsub (displaceWeb (vadd (⟨1/2, 1/2⟩ : Vec2) (smul (1/50) ⟨0, 1⟩))
        [⟨0, ⟨1/2, 1/2⟩, PointKind.stretch, 1, 1/10, false⟩]
        ⟨1, InterpKind.smooth⟩)
        (vadd (⟨1/2, 1/2⟩ : Vec2) (smul (1/50) ⟨0, 1⟩))) := by
  have hu : length (⟨0, 1⟩ : Vec2) = 1 := length_mk_zero (by norm_num)
  refine ⟨by norm_num, by norm_num,
    by norm_num [inUnitSquare, vadd, smul],
    by norm_num [inUnitSquare, vadd, smul], ?_, ?_⟩
  · exact falloff_monotone.1 ⟨0, ⟨1/2, 1/2⟩, PointKind.stretch, 1, 1/10, false⟩
      ⟨1, InterpKind.linear⟩ ⟨0, 1⟩ (1/50) (1/20) rfl hu (by norm_num)
      (by norm_num) (by norm_num) (by norm_num) (by norm_num)
      (by norm_num [inUnitSquare, vadd, smul])
      (by norm_num [inUnitSquare, vadd, smul])
  · exact falloff_monotone.2 ⟨0, ⟨1/2, 1/2⟩, PointKind.stretch, 1, 1/10, false⟩
      ⟨1, InterpKind.smooth⟩ ⟨0, 1⟩ (1/50) (1/20) hu (by norm_num)
      (by norm_num) (by norm_num) (by norm_num) (by norm_num)

/-! ### List machinery for the mesh generator proofs -/

lemma flatMap_singleton_map {α β : Type} (f : α → β) (l : List α) :
    (l.flatMap fun a => [f a]) = l.map f := by
  rw [show (l.flatMap fun a => [f a]) = (l.map f).flatMap (fun b => [b]) by
      rw [List.flatMap_map], List.flatMap_singleton']

lemma length_flatMap_const {α β : Type} (l : List α) (f : α → List β) (k : ℕ)
    (h : ∀ a ∈ l, (f a).length = k) : (l.flatMap f).length = l.length * k := by
  induction l with
  | nil => simp
  | cons a l ih =>
    simp only [List.flatMap_cons, List.length_append, List.length_cons]
    rw [h a (List.mem_cons_self a l), ih (fun b hb => h b (List.mem_cons_of_mem a hb))]
    ring

lemma flatMap_range_drop {β : Type} (k : ℕ) :
    ∀ (y : ℕ) (f : ℕ → List β), (∀ i, (f i).length = k) → ∀ n, y ≤ n →
      ((List.range n).flatMap f).drop (y * k)
        = (List.range (n - y)).flatMap (fun i => f (y + i)) := by
  intro y
  induction y with
  | zero =>
    intro f _ n _
    simp
  | succ y ih =>
    intro f hlen n hyn
    have hn1 : n = (n - 1) + 1 := by omega
    rw [hn1, List.range_succ_eq_map, List.flatMap_cons,
      List.drop_append_eq_append_drop, hlen 0,
      show (y + 1) * k = y * k + k by ring, Nat.add_sub_cancel,
      List.drop_eq_nil_of_le (by rw [hlen 0]; nlinarith), List.nil_append,
      List.flatMap_map]
    rw [ih (fun a => f (Nat.succ a)) (fun i => hlen (Nat.succ i)) (n - 1)
      (by omega)]
    have hfun : (fun i => f (Nat.succ (y + i))) = fun i => f (y + 1 + i) := by
      funext i
      rw [show Nat.succ (y + i) = y + 1 + i by omega]
    rw [hfun, show n - 1 - y = n - 1 + 1 - (y + 1) by omega]

lemma flatMap_range_extract {β : Type} (k : ℕ) (f : ℕ → List β)
    (hlen : ∀ i, (f i).length = k) {n y : ℕ} (hy : y < n) :
    (((List.range n).flatMap f).drop (y * k)).take k = f y := by
  rw [flatMap_range_drop k y f hlen n hy.le]
  have hny : n - y = (n - y - 1) + 1 := by omega
  rw [hny, List.range_succ_eq_map, List.flatMap_cons]
  rw [show k = (f (y + 0)).length from (hlen (y + 0)).symm, List.take_left]
  simp

/-- C6: for every resolution `R ≥ 1`, mesh generation produces exactly
`(R+1)²` vertices, the vertex at row-major slot `y·(R+1)+x` being the UV
pair `(x/R, y/R)`; exactly `6·R²` index entries, cell `(x,y)` emitting
`(topLeft, bottomLeft, topRight)` then `(topRight, bottomLeft,
bottomRight)` with `topLeft = y·(R+1)+x`; and every emitted index is
strictly below `(R+1)²`. -/
theorem mesh_generate_spec (R : ℕ) (h : 1 ≤ R) :
    (meshVertices R).length = (R + 1)^2 ∧
    (meshIndices R).length = 6 * R^2 ∧
    (∀ i ∈ meshIndices R, i < (R + 1)^2) ∧
    (∀ x y : ℕ, x ≤ R → y ≤ R →
      ((meshVertices R).drop (y * (R + 1) + x)).take 1
        = [((x : ℚ) / (R : ℚ), (y : ℚ) / (R : ℚ))]) ∧
    (∀ x y : ℕ, x < R → y < R →
      ((meshIndices R).drop (6 * (y * R + x))).take 6
        = [y * (R + 1) + x, (y + 1) * (R + 1) + x, y * (R + 1) + x + 1,
           y * (R + 1) + x + 1, (y + 1) * (R + 1) + x,
           (y + 1) * (R + 1) + x + 1]) := by
  have hcl : ∀ x y : ℕ, (cellIndices R x y).length = 6 := fun x y => by
    simp [cellIndices]
  have hinner : ∀ y : ℕ,
      ((List.range R).flatMap (fun x => cellIndices R x y)).length = R * 6 :=
    fun y => by
      rw [length_flatMap_const _ _ 6 (fun a _ => hcl a y)]
      simp
  refine ⟨?_, ?_, ?_, ?_, ?_⟩
  · unfold meshVertices
    rw [length_flatMap_const _ _ (R + 1) (fun a _ => by simp)]
    simp
    ring
  · unfold meshIndices
    rw [length_flatMap_const _ _ (R * 6) (fun a _ => hinner a)]
    simp
    ring
  · intro i hi
    simp only [meshIndices, List.mem_flatMap, List.mem_range] at hi
    obtain ⟨y, hy, x, hx, hcell⟩ := hi
    simp only [cellIndices, List.mem_cons, List.not_mem_nil, or_false] at hcell
    rcases hcell with rfl | rfl | rfl | rfl | rfl | rfl <;> nlinarith
  · intro x y hx hy
    unfold meshVertices
    rw [show y * (R + 1) + x = y * (R + 1) + x * 1 by ring, ← List.drop_drop]
    rw [flatMap_range_drop (R + 1) y _ (fun i => by simp) (R + 1) (by omega)]
    rw [show R + 1 - y = (R - y) + 1 by omega, List.range_succ_eq_map,
      List.flatMap_cons, List.drop_append_eq_append_drop]
    rw [List.take_append_of_le_length (by simp; omega)]
    rw [← flatMap_singleton_map]
    rw [flatMap_range_extract 1 _ (fun i => by simp) (show x < R + 1 by omega)]
    norm_num
  · intro x y hx hy
    unfold meshIndices
    rw [show 6 * (y * R + x) = y * (R * 6) + x * 6 by ring, ← List.drop_drop]
    rw [flatMap_range_drop (R * 6) y _ (fun i => hinner i) R (by omega)]
    rw [show R - y = (R - y - 1) + 1 by omega, List.range_succ_eq_map,
      List.flatMap_cons, List.drop_append_eq_append_drop]
    rw [List.take_append_of_le_length (by
      rw [List.length_drop, hinner (y + 0)]
      have h6 : x * 6 + 6 ≤ R * 6 := by nlinarith
      omega)]
    rw [flatMap_range_extract 6 _ (fun i => hcl i (y + 0)) hx]
    simp [cellIndices]

/-- Witness for C6 at resolution `R = 2`. -/
theorem mesh_generate_spec_witness :
    1 ≤ 2 ∧ (meshVertices 2).length = (2 + 1)^2 ∧
    (meshIndices 2).length = 6 * 2^2 :=
  ⟨by norm_num, (mesh_generate_spec 2 (by norm_num)).1,
   (mesh_generate_spec 2 (by norm_num)).2.1⟩

/-- C9 (amended): the render tick is a total function (it cannot raise),
and it is a true no-op exactly under the guard clause — uninitialized
engine, no video element, or missing shader program.  When a video is
loaded but its frame is not yet decoded (`readyState < 2`), the tick does
not re-upload the texture, but it still clears and redraws: the surface
is overwritten with the composite of the stale texture and the current
control point snapshot. -/
theorem render_guard_no_op :
    (∀ st : ProcessorState,
      st.isInitialized = false ∨ st.video = none ∨ st.shaderProgram = none →
      render st = st) ∧
    (∀ (st : ProcessorState) (v : VideoState),
      st.isInitialized = true → st.video = some v → st.shaderProgram = some () →
      v.readyState < 2 →
      (render st).texture = st.texture ∧
      (render st).surface
        = some ⟨st.texture, st.controlPoints, st.warpSettings⟩) := by
  constructor
  · intro st h
    rcases h with h | h | h <;> simp [render, h]
  · intro st v hinit hv hsp hrs
    have hnle : ¬ 2 ≤ v.readyState := by omega
    simp [render, hinit, hv, hsp, hnle]

/-- Witness for the amended C9: a concrete uninitialized state is left
untouched, and a concrete loaded-but-undecoded state keeps its texture
while its surface is redrawn from the stale texture. -/
theorem render_guard_no_op_witness :
    render ⟨false, none, none, none, [], ⟨1, InterpKind.linear⟩, none⟩
      = ⟨false, none, none, none, [], ⟨1, InterpKind.linear⟩, none⟩ ∧
    ((render ⟨true, some ⟨1, 5⟩, some (), some 4, [],
          ⟨1, InterpKind.linear⟩, none⟩).texture
        = (⟨true, some ⟨1, 5⟩, some (), some 4, [],
          ⟨1, InterpKind.linear⟩, none⟩ : ProcessorState).texture ∧
      (render ⟨true, some ⟨1, 5⟩, some (), some 4, [],
          ⟨1, InterpKind.linear⟩, none⟩).surface
        = some ⟨(⟨true, some ⟨1, 5⟩, some (), some 4, [],
            ⟨1, InterpKind.linear⟩, none⟩ : ProcessorState).texture,
          [], ⟨1, InterpKind.linear⟩⟩) :=
  ⟨render_guard_no_op.1 _ (Or.inl rfl),
   render_guard_no_op.2 ⟨true, some ⟨1, 5⟩, some (), some 4, [],
     ⟨1, InterpKind.linear⟩, none⟩ ⟨1, 5⟩ rfl rfl rfl (by norm_num)⟩

/-- C9 counterexample: with a video loaded whose current frame is not yet
decoded (`readyState = 1 < 2`), the tick is not a no-op — the surface is
redrawn from the stale texture and the current control point list, so a
previously composited output that used a different point snapshot is
overwritten. -/
theorem render_not_noop_when_frame_undecoded :
    (render ⟨true, some ⟨1, 5⟩, some (), some 4, [default],
        ⟨1, InterpKind.smooth⟩,
        some ⟨some 4, [], ⟨1, InterpKind.smooth⟩⟩⟩).surface
      ≠ (⟨true, some ⟨1, 5⟩, some (), some 4, [default],
        ⟨1, InterpKind.smooth⟩,
        some ⟨some 4, [], ⟨1, InterpKind.smooth⟩⟩⟩ : ProcessorState).surface := by
  simp [render]

/-- C10 (amended): the editor's create operation establishes the range
invariant — the position is clamped into `[0,1]²` on write and the
defaults `strength = 1`, `radius = 0.1` lie in range — so a store that
satisfied the invariant still satisfies it after a create. -/
theorem store_create_establishes_range (points : List ControlPoint)
    (nextId : ℕ) (location viewSize : Vec2)
    (h : ∀ c ∈ points, pointInRange c) :
    ∀ c ∈ addControlPointEditor points nextId location viewSize,
      pointInRange c := by
  intro c hc
  unfold addControlPointEditor at hc
  split_ifs at hc
  · exact h c hc
  · rcases List.mem_append.1 hc with hc | hc
    · exact h c hc
    · rw [List.mem_singleton] at hc
      subst hc
      refine ⟨le_max_left _ _, max_le zero_le_one (min_le_left _ _),
        le_max_left _ _, max_le zero_le_one (min_le_left _ _),
        by norm_num, by norm_num, by norm_num, by norm_num⟩

/-- Witness for the amended C10: creating a point from a tap far outside
the view still yields an in-range stored point. -/
theorem store_create_establishes_range_witness :
    (∀ c ∈ ([] : List ControlPoint), pointInRange c) ∧
    ∀ c ∈ addControlPointEditor [] 7 ⟨5, -3⟩ ⟨1, 1⟩, pointInRange c :=
  ⟨by simp, store_create_establishes_range [] 7 ⟨5, -3⟩ ⟨1, 1⟩ (by simp)⟩

/-- C10 counterexample: `updateControlPoint` writes the supplied strength
verbatim — updating a stored point with strength `5` leaves a stored
point whose strength violates the `[0,2]` range invariant, so the store
does not clamp on every write. -/
theorem store_update_unclamped :
    updateControlPoint [⟨0, ⟨1/2, 1/2⟩, PointKind.stretch, 1, 1/10, false⟩] 0
        none (some 5) none ⟨1, 1⟩
      = [⟨0, ⟨1/2, 1/2⟩, PointKind.stretch, 5, 1/10, false⟩] ∧
    ¬ (∀ c ∈ updateControlPoint
        [⟨0, ⟨1/2, 1/2⟩, PointKind.stretch, 1, 1/10, false⟩] 0
        none (some 5) none ⟨1, 1⟩, pointInRange c) := by
  have hupd : updateControlPoint
      [⟨0, ⟨1/2, 1/2⟩, PointKind.stretch, 1, 1/10, false⟩] 0
      none (some 5) none ⟨1, 1⟩
      = [⟨0, ⟨1/2, 1/2⟩, PointKind.stretch, 5, 1/10, false⟩] := by
    unfold updateControlPoint
    simp [List.findIdx?_cons]
  refine ⟨hupd, ?_⟩
  intro hall
  have hmem := hall ⟨0, ⟨1/2, 1/2⟩, PointKind.stretch, 5, 1/10, false⟩
    (by rw [hupd]; exact List.mem_singleton.2 rfl)
  obtain ⟨-, -, -, -, -, h52, -, -⟩ := hmem
  norm_num at h52

end StretchVideo
